import Mathlib

/-!
Verification of the collaborative multi-file editing client
(tab store, edit-message handler, subscription and debounce effects,
rename flow, autosave tick), shallowly embedded from the JavaScript
source (`EditorPanel.jsx`, the zustand store in `FancyBackground.jsx`).
-/

/-! ### Decimal representation of naturals (embedding of JS number-to-string) -/

/-- Character for a single decimal digit (embedding of JS digit rendering). -/
def digitChar (d : Nat) : Char := Char.ofNat (48 + d)

/-- Little-endian decimal digits of `n`, with explicit fuel so the kernel
can evaluate it. `fuel ≥ n` is always enough. -/
def decDigitsF : Nat → Nat → List Nat
  | 0, _ => []
  | fuel + 1, n => if n = 0 then [] else n % 10 :: decDigitsF fuel (n / 10)

/-- Decimal string of a natural number, as JS template interpolation renders it. -/
def natRepr (n : Nat) : String :=
  if n = 0 then "0" else String.mk (((decDigitsF n n).map digitChar).reverse)

/-- Value of a little-endian digit list. -/
def ofDigits : List Nat → Nat
  | [] => 0
  | d :: ds => d + 10 * ofDigits ds

theorem decDigitsF_stable (fuel n : Nat) (h : n ≤ fuel) :
    ofDigits (decDigitsF fuel n) = n := by
  induction fuel generalizing n with
  | zero =>
    have : n = 0 := Nat.le_zero.mp h
    subst this
    simp [decDigitsF, ofDigits]
  | succ fuel ih =>
    by_cases hn : n = 0
    · subst hn; simp [decDigitsF, ofDigits]
    · have hdiv : n / 10 ≤ fuel := by
        have h1 : n / 10 < n := Nat.div_lt_self (Nat.pos_of_ne_zero hn) (by omega)
        omega
      simp only [decDigitsF, if_neg hn, ofDigits, ih (n / 10) hdiv]
      omega

theorem decDigitsF_lt_ten (fuel n : Nat) : ∀ d ∈ decDigitsF fuel n, d < 10 := by
  induction fuel generalizing n with
  | zero => intro d hd; simp [decDigitsF] at hd
  | succ fuel ih =>
    intro d hd
    by_cases hn : n = 0
    · subst hn; simp [decDigitsF] at hd
    · simp only [decDigitsF, if_neg hn, List.mem_cons] at hd
      rcases hd with h | h
      · subst h; exact Nat.mod_lt _ (by omega)
      · exact ih _ d h

theorem digitChar_inj {d e : Nat} (hd : d < 10) (he : e < 10)
    (h : digitChar d = digitChar e) : d = e := by
  interval_cases d <;> interval_cases e <;> simp_all [digitChar]

theorem map_digitChar_inj : ∀ ds es : List Nat, (∀ d ∈ ds, d < 10) → (∀ e ∈ es, e < 10) →
    ds.map digitChar = es.map digitChar → ds = es := by
  intro ds
  induction ds with
  | nil => intro es _ _ h; cases es <;> simp_all
  | cons d ds ih =>
    intro es hds hes h
    cases es with
    | nil => simp at h
    | cons e es =>
      simp only [List.map_cons, List.cons.injEq] at h
      have h1 : d = e := digitChar_inj (hds d (by simp)) (hes e (by simp)) h.1
      have h2 : ds = es := ih es (fun x hx => hds x (by simp [hx]))
        (fun x hx => hes x (by simp [hx])) h.2
      simp [h1, h2]

theorem natRepr_ne_zero {b : Nat} (hb : b ≠ 0) : natRepr b ≠ "0" := by
  intro h
  have hcons : decDigitsF b b = b % 10 :: decDigitsF (b - 1) (b / 10) := by
    cases b with
    | zero => omega
    | succ m => simp [decDigitsF, hb]
  simp only [natRepr, if_neg hb] at h
  have hdata : ((decDigitsF b b).map digitChar).reverse = ['0'] := congrArg String.data h
  rw [hcons] at hdata
  simp only [List.map_cons, List.reverse_cons] at hdata
  have hlen := congrArg List.length hdata
  simp only [List.length_append, List.length_reverse, List.length_map,
    List.length_cons, List.length_nil, List.length_singleton] at hlen
  have hrest : decDigitsF (b - 1) (b / 10) = [] := by
    have : (decDigitsF (b - 1) (b / 10)).length = 0 := by omega
    exact List.eq_nil_of_length_eq_zero this
  rw [hrest] at hdata
  simp only [List.map_nil, List.reverse_nil, List.nil_append, List.cons.injEq] at hdata
  have hz : b % 10 = 0 := by
    have h0 : digitChar 0 = '0' := by decide
    exact digitChar_inj (Nat.mod_lt _ (by omega)) (by omega) (hdata.1.trans h0.symm)
  have hb10 : b / 10 ≤ b - 1 := by
    have : b / 10 < b := Nat.div_lt_self (Nat.pos_of_ne_zero hb) (by omega)
    omega
  have hv := decDigitsF_stable (b - 1) (b / 10) hb10
  rw [hrest] at hv
  simp only [ofDigits] at hv
  omega

theorem natRepr_inj : Function.Injective natRepr := by
  intro a b h
  by_cases ha : a = 0 <;> by_cases hb : b = 0
  · omega
  · exact absurd h.symm (by subst ha; exact natRepr_ne_zero hb)
  · exact absurd h (by subst hb; exact natRepr_ne_zero ha)
  · simp only [natRepr, if_neg ha, if_neg hb] at h
    have hdata := congrArg String.data h
    simp only [String.data] at hdata
    have hmaps := List.reverse_injective hdata
    have hds := map_digitChar_inj _ _ (decDigitsF_lt_ten a a) (decDigitsF_lt_ten b b) hmaps
    have hva := decDigitsF_stable a a (Nat.le_refl a)
    have hvb := decDigitsF_stable b b (Nat.le_refl b)
    rw [hds] at hva
    omega

/-! ### Duplicate-name generation (embedding of `duplicateTab` in the store)

The store computes `safeBase = (name || "untitled").replace(/ Copy( \d+)?(\.[^.]+)?$/, "")`
and then tries `safeBase + " Copy"`, `safeBase + " Copy 2"`, … until the candidate
collides with no current tab name. -/

/-- Does `rest` match the regex fragment `( \d+)?(\.[^.]+)?` anchored on both sides?
`rest` is what follows `" Copy"` in the matched suffix. -/
def isCopyRest (rest : List Char) : Bool :=
  match rest with
  | [] => true
  | '.' :: t => !t.isEmpty && t.all (fun c => c ≠ '.')
  | ' ' :: t =>
    let ds := t.takeWhile (fun c => c.isDigit)
    let r := t.dropWhile (fun c => c.isDigit)
    !ds.isEmpty &&
      (match r with
       | [] => true
       | '.' :: t2 => !t2.isEmpty && t2.all (fun c => c ≠ '.')
       | _ => false)
  | _ => false

/-- Does `l` match the whole regex ` Copy( \d+)?(\.[^.]+)?` anchored on both sides? -/
def isCopySuffix (l : List Char) : Bool :=
  match l with
  | ' ' :: 'C' :: 'o' :: 'p' :: 'y' :: rest => isCopyRest rest
  | _ => false

/-- JS `String.replace` with the end-anchored regex ` Copy( \d+)?(\.[^.]+)?$` and
empty replacement: delete the suffix starting at the leftmost position where the
anchored pattern matches; if no position matches, return the string unchanged. -/
def stripCopy (l : List Char) : List Char :=
  if isCopySuffix l then []
  else
    match l with
    | [] => []
    | c :: t => c :: stripCopy t

/-- `safeBase` computation of `duplicateTab`. -/
def safeBase (name : String) : String :=
  String.mk (stripCopy (if name = "" then "untitled" else name).data)

/-- The `counter`-th candidate tried by the `duplicateTab` while-loop
(`counter = 1` is the bare `" Copy"` candidate). -/
def copyCandidate (base : String) (n : Nat) : String :=
  if n = 1 then base ++ " Copy" else base ++ " Copy " ++ natRepr n

/-- The collision-avoidance while-loop of `duplicateTab`, with fuel.
`duplicateTab` runs it with fuel `taken.length + 1`, which always suffices. -/
def genCopyLoop (base : String) (taken : List String) : Nat → Nat → String
  | 0, counter => copyCandidate base counter
  | fuel + 1, counter =>
    let c := copyCandidate base counter
    if c ∈ taken then genCopyLoop base taken fuel (counter + 1) else c

/-- The fresh duplicate name generated by `duplicateTab` against names `taken`. -/
def genCopyName (base : String) (taken : List String) : String :=
  genCopyLoop base taken (taken.length + 1) 1

theorem copyCandidate_inj (base : String) {n m : Nat} (hn : 1 ≤ n) (hm : 1 ≤ m)
    (h : copyCandidate base n = copyCandidate base m) : n = m := by
  have c1 : copyCandidate base 1 = base ++ " Copy" := by simp [copyCandidate]
  have c2 : ∀ k, 2 ≤ k → copyCandidate base k = base ++ " Copy " ++ natRepr k := by
    intro k hk
    have hne : k ≠ 1 := by omega
    simp [copyCandidate, hne]
  by_cases h1 : n = 1 <;> by_cases h2 : m = 1
  · omega
  · exfalso
    rw [h1, c1, c2 m (by omega)] at h
    have hd := congrArg String.data h
    rw [String.data_append, String.data_append, String.data_append,
      List.append_assoc] at hd
    have hc := List.append_cancel_left hd
    have hlen := congrArg List.length hc
    rw [List.length_append] at hlen
    have h5 : (" Copy" : String).data.length = 5 := by decide
    have h6 : (" Copy " : String).data.length = 6 := by decide
    omega
  · exfalso
    rw [h2, c1, c2 n (by omega)] at h
    have hd := congrArg String.data h
    rw [String.data_append, String.data_append, String.data_append,
      List.append_assoc] at hd
    have hc := List.append_cancel_left hd
    have hlen := congrArg List.length hc
    rw [List.length_append] at hlen
    have h5 : (" Copy" : String).data.length = 5 := by decide
    have h6 : (" Copy " : String).data.length = 6 := by decide
    omega
  · rw [c2 n (by omega), c2 m (by omega)] at h
    have hd := congrArg String.data h
    rw [String.data_append, String.data_append, String.data_append, String.data_append] at hd
    have hc := List.append_cancel_left hd
    exact natRepr_inj (String.ext hc)

theorem genCopyLoop_free (base : String) (taken : List String) :
    ∀ fuel counter, (∃ j, j < fuel ∧ copyCandidate base (counter + j) ∉ taken) →
    genCopyLoop base taken fuel counter ∉ taken := by
  intro fuel
  induction fuel with
  | zero => intro counter ⟨j, hj, _⟩; omega
  | succ fuel ih =>
    intro counter ⟨j, hj, hfree⟩
    simp only [genCopyLoop]
    by_cases hc : copyCandidate base counter ∈ taken
    · simp only [if_pos hc]
      apply ih
      cases j with
      | zero => simp at hfree; exact absurd hc hfree
      | succ j' =>
        refine ⟨j', by omega, ?_⟩
        have : counter + 1 + j' = counter + (j' + 1) := by omega
        rw [this]
        exact hfree
    · simp only [if_neg hc]
      exact hc

theorem genCopyName_fresh (base : String) (taken : List String) :
    genCopyName base taken ∉ taken := by
  apply genCopyLoop_free
  by_contra hall
  push_neg at hall
  -- all of the `taken.length + 1` pairwise-distinct candidates would be in `taken`
  have hsub : ((List.range (taken.length + 1)).map (fun j => copyCandidate base (1 + j))) ⊆ taken := by
    intro x hx
    simp only [List.mem_map, List.mem_range] at hx
    obtain ⟨j, hj, rfl⟩ := hx
    exact hall j hj
  have hnodup : ((List.range (taken.length + 1)).map (fun j => copyCandidate base (1 + j))).Nodup := by
    apply List.Nodup.map_on
    · intro x _ y _ hxy
      have := copyCandidate_inj base (by omega) (by omega) hxy
      omega
    · exact List.nodup_range _
  have hle := List.Subperm.length_le (List.subperm_of_subset hnodup hsub)
  simp only [List.length_map, List.length_range] at hle
  omega

/-- If some decomposition of `l` ends in the copy-suffix pattern, then `stripCopy`
removes a (leftmost, hence maximal) suffix that itself matches the pattern. -/
theorem stripCopy_strips (l : List Char) :
    ∀ b suf, l = b ++ suf → isCopySuffix suf = true →
    ∃ removed, l = stripCopy l ++ removed ∧ isCopySuffix removed = true := by
  induction l with
  | nil =>
    intro b suf hsplit hsuf
    exfalso
    have : suf = [] := by
      cases b <;> simp_all
    subst this
    simp [isCopySuffix] at hsuf
  | cons c t ih =>
    intro b suf hsplit hsuf
    by_cases hl : isCopySuffix (c :: t) = true
    · exact ⟨c :: t, by simp [stripCopy, hl], hl⟩
    · have hstrip : stripCopy (c :: t) = c :: stripCopy t := by
        simp [stripCopy, hl]
      cases b with
      | nil =>
        simp only [List.nil_append] at hsplit
        rw [← hsplit] at hsuf
        exact absurd hsuf hl
      | cons b0 b' =>
        simp only [List.cons_append, List.cons.injEq] at hsplit
        obtain ⟨rfl, hsplit'⟩ := hsplit
        obtain ⟨removed, hrem, hrsuf⟩ := ih b' suf hsplit' hsuf
        refine ⟨removed, ?_, hrsuf⟩
        rw [hstrip, List.cons_append]
        exact congrArg (List.cons c) hrem

/-- If no suffix of `l` matches the pattern, `stripCopy` leaves `l` unchanged. -/
theorem stripCopy_id (l : List Char)
    (h : ∀ b suf, l = b ++ suf → isCopySuffix suf = false) : stripCopy l = l := by
  induction l with
  | nil => simp [stripCopy, isCopySuffix]
  | cons c t ih =>
    have hl : isCopySuffix (c :: t) = false := h [] (c :: t) rfl
    simp only [stripCopy, hl, Bool.false_eq_true, if_neg, ite_false]
    simp only [List.cons.injEq, true_and]
    exact ih (fun b suf hsplit => h (c :: b) suf (by simp [hsplit]))

/-! ### Tab Store (embedding of the zustand store `useCompilerStore`) -/

/-- One open-file tab, as stored in `useCompilerStore`. `path` is absent
(`none`) for scratch tabs that never came from disk. -/
structure Tab where
  id : String
  name : String
  content : String
  isCustomName : Bool
  languageId : Nat
  path : Option String := none
deriving DecidableEq, Repr

/-- The slice of the zustand store state that the tab operations read and write. -/
structure StoreState where
  tabs : List Tab
  activeTabId : String
  nextTabCounter : Nat
  source : String
  languageId : Nat
  leaderboardTick : Nat
deriving DecidableEq, Repr

/-- JS `a || b` on an optional string `a` (empty string is falsy). -/
def jsOr (a : Option String) (b : String) : String :=
  match a with
  | some s => if s = "" then b else s
  | none => b

/-- Split off the final extension of a file name the way the regex
`/(\.[^.]+)?$/` matches it: the last `'.'` together with its nonempty dot-free
tail, if there is one. Returns `(stem, extension-including-dot)`. -/
def lastExtSplit (s : String) : Option (String × String) :=
  let l := s.data
  let r := l.reverse
  let ds := r.takeWhile (fun c => c ≠ '.')
  if ds.isEmpty then none
  else
    match r.drop ds.length with
    | [] => none
    | _ :: _ => some (String.mk (l.take (l.length - ds.length - 1)), String.mk ('.' :: ds.reverse))

/-- `baseName.replace(/(\.[^.]+)?$/, m => m ? `_${next}${m}` : `_${next}`)`:
insert `_n` before the final extension, or append it when there is none. -/
def insertBeforeExt (baseName : String) (n : Nat) : String :=
  match lastExtSplit baseName with
  | some (stem, ext) => stem ++ "_" ++ natRepr n ++ ext
  | none => baseName ++ "_" ++ natRepr n

section StoreOps

/- `getDefaultFileNameForMonaco(getMonacoLanguage(languageId))`: the default
display file name for a language id. The `languageUtils` module is not part of
the sources under verification, so the store operations are parameterized over
it; no claim depends on its values. -/
variable (defaultNameFor : Nat → String)

/-- Store op `addTab`. -/
def addTab (s : StoreState) : StoreState :=
  let next := s.nextTabCounter + 1
  let baseName := defaultNameFor s.languageId
  let name := if next = 1 then baseName else insertBeforeExt baseName next
  let newTab : Tab := ⟨"tab-" ++ natRepr next, name, "", false, s.languageId, none⟩
  { s with tabs := s.tabs ++ [newTab], activeTabId := newTab.id, nextTabCounter := next,
           source := "", leaderboardTick := s.leaderboardTick + 1 }

/-- Store op `createTab({name, content, isCustomName, path})`. -/
def createTab (s : StoreState) (name : Option String) (content : String)
    (isCustomName : Bool) (path : Option String) : StoreState :=
  let next := s.nextTabCounter + 1
  let safeName := jsOr name (defaultNameFor s.languageId)
  let newTab : Tab := ⟨"tab-" ++ natRepr next, safeName, content, isCustomName, s.languageId, path⟩
  { s with tabs := s.tabs ++ [newTab], activeTabId := newTab.id, nextTabCounter := next,
           source := content, leaderboardTick := s.leaderboardTick + 1 }

/-- Store op `selectTab(tabId)`. The JS falls back to `state.tabs[0]` when the
id is unknown; an empty tab list would throw there, leaving the state unchanged. -/
def selectTab (s : StoreState) (tabId : String) : StoreState :=
  match s.tabs with
  | [] => s
  | first :: _ =>
    let tab := (s.tabs.find? (fun t => t.id = tabId)).getD first
    { s with activeTabId := tab.id, source := tab.content, languageId := tab.languageId }

/-- Store op `updateTabContent(tabId, content)`. -/
def updateTabContent (s : StoreState) (tabId : String) (content : String) : StoreState :=
  { s with tabs := s.tabs.map (fun t => if t.id = tabId then { t with content := content } else t) }

/-- Store op `renameTab(tabId, newName, newPath)`. -/
def renameTab (s : StoreState) (tabId : String) (newName : String)
    (newPath : Option String) : StoreState :=
  { s with tabs := s.tabs.map (fun t =>
      if t.id = tabId then
        { t with name := newName, isCustomName := true,
                 path := match newPath with | some p => some p | none => t.path }
      else t) }

/-- Store op `duplicateTab(tabId)`. -/
def duplicateTab (s : StoreState) (tabId : String) : StoreState :=
  match s.tabs.find? (fun t => t.id = tabId) with
  | none => s
  | some original =>
    let next := s.nextTabCounter + 1
    let base := safeBase original.name
    let taken := s.tabs.map (fun t => t.name)
    let candidate := genCopyName base taken
    let duplicated : Tab := ⟨"tab-" ++ natRepr next, candidate, original.content, true,
      original.languageId, none⟩
    { s with tabs := s.tabs ++ [duplicated], activeTabId := duplicated.id,
             nextTabCounter := next, source := duplicated.content,
             languageId := duplicated.languageId, leaderboardTick := s.leaderboardTick + 1 }

/-- Store op `closeTab(tabId)`: refuses to act with a single tab, otherwise
removes the tab and falls back to the tab preceding its index. A JS exception
(impossible index) leaves the zustand state unchanged. -/
def closeTab (s : StoreState) (tabId : String) : StoreState :=
  if s.tabs.length = 1 then s
  else
    match s.tabs.findIdx? (fun t => t.id = tabId) with
    | none => s
    | some index =>
      let nextTabs := s.tabs.filter (fun t => t.id ≠ tabId)
      match nextTabs with
      | [] => s
      | first :: _ =>
        let fallback := nextTabs.getD (index - 1) first
        let nextActive := if tabId = s.activeTabId then fallback.id else s.activeTabId
        let activeTab := (nextTabs.find? (fun t => t.id = nextActive)).getD first
        { s with tabs := nextTabs, activeTabId := nextActive, source := activeTab.content,
                 languageId := activeTab.languageId, leaderboardTick := s.leaderboardTick + 1 }

/-- Store op `closeOthers(tabId)`. -/
def closeOthers (s : StoreState) (tabId : String) : StoreState :=
  match s.tabs with
  | [] => s
  | first :: _ =>
    let target := (s.tabs.find? (fun t => t.id = tabId)).getD first
    { s with tabs := [target], activeTabId := target.id, source := target.content,
             languageId := target.languageId, leaderboardTick := s.leaderboardTick + 1 }

/-- Store op `closeAll()`: collapse to a single fresh default tab. -/
def closeAll (s : StoreState) : StoreState :=
  let baseTab : Tab := ⟨"tab-1", defaultNameFor s.languageId, "", false, s.languageId, none⟩
  { s with tabs := [baseTab], activeTabId := "tab-1", nextTabCounter := 1, source := "",
           leaderboardTick := s.leaderboardTick + 1 }

/-- Store op `deleteTab(tabId)`: deleting the last remaining tab replaces it
with a fresh default tab; otherwise behaves like `closeTab` without the
last-tab guard (`Math.max(index - 1, 0)` with `findIndex`'s `-1` gives 0). -/
def deleteTab (s : StoreState) (tabId : String) : StoreState :=
  if s.tabs.length = 1 ∧ (s.tabs.head?.map (fun t => t.id)) = some tabId then
    let baseTab : Tab := ⟨"tab-1", defaultNameFor s.languageId, "", false, s.languageId, none⟩
    { s with tabs := [baseTab], activeTabId := "tab-1", nextTabCounter := 1, source := "",
             leaderboardTick := s.leaderboardTick + 1 }
  else
    let nextTabs := s.tabs.filter (fun t => t.id ≠ tabId)
    let idx := match s.tabs.findIdx? (fun t => t.id = tabId) with
      | some i => i - 1
      | none => 0
    match nextTabs with
    | [] => s
    | first :: _ =>
      let fallback := nextTabs.getD idx first
      let nextActive := if tabId = s.activeTabId then fallback.id else s.activeTabId
      let activeTab := (nextTabs.find? (fun t => t.id = nextActive)).getD first
      { s with tabs := nextTabs, activeTabId := nextActive, source := activeTab.content,
               languageId := activeTab.languageId, leaderboardTick := s.leaderboardTick + 1 }

/-- One Tab Store operation (arguments included). -/
inductive TabOp where
  | addTabOp
  | createTabOp (name : Option String) (content : String) (isCustomName : Bool) (path : Option String)
  | selectTabOp (tabId : String)
  | updateTabContentOp (tabId : String) (content : String)
  | renameTabOp (tabId : String) (newName : String) (newPath : Option String)
  | duplicateTabOp (tabId : String)
  | closeTabOp (tabId : String)
  | closeOthersOp (tabId : String)
  | closeAllOp
  | deleteTabOp (tabId : String)
deriving DecidableEq, Repr

/-- Apply one operation to the store. -/
def applyOp (s : StoreState) : TabOp → StoreState
  | .addTabOp => addTab defaultNameFor s
  | .createTabOp name content isCustomName path => createTab defaultNameFor s name content isCustomName path
  | .selectTabOp tabId => selectTab s tabId
  | .updateTabContentOp tabId content => updateTabContent s tabId content
  | .renameTabOp tabId newName newPath => renameTab s tabId newName newPath
  | .duplicateTabOp tabId => duplicateTab s tabId
  | .closeTabOp tabId => closeTab s tabId
  | .closeOthersOp tabId => closeOthers s tabId
  | .closeAllOp => closeAll defaultNameFor s
  | .deleteTabOp tabId => deleteTab defaultNameFor s tabId

/-- The welcome snippet prefilled in the first tab (abbreviated; no claim
depends on its exact text). -/
def welcomeContent : String := "// Welcome to the 2050 Compiler"

/-- Initial store state: one default tab `tab-1`, active, holding the welcome
snippet, language id 63 (JavaScript). -/
def initialState : StoreState :=
  { tabs := [⟨"tab-1", defaultNameFor 63, welcomeContent, false, 63, none⟩],
    activeTabId := "tab-1", nextTabCounter := 1, source := welcomeContent, languageId := 63,
    leaderboardTick := 0 }

end StoreOps

/-! ### Inbound edit handling (embedding of the `ws.addEventListener("message", …)`
handler in `EditorPanel`) -/

/-- An inbound/outbound collaboration edit message (`type: "edit"`). -/
structure EditMsg where
  filePath : String
  content : String
  clientId : String
  timestamp : Nat
deriving DecidableEq, Repr

/-- The `lastAppliedRemote` ref: `{filePath, timestamp}` of the most recently
applied remote edit. Initially `{filePath: null, timestamp: 0}`. -/
structure RemoteMarker where
  filePath : Option String
  timestamp : Nat
deriving DecidableEq, Repr

/-- Collaboration key of the active tab: `activeTab?.path || activeTab?.name`,
`none` when there is no active tab or the key is falsy (empty). -/
def activeCollabKey (s : StoreState) : Option String :=
  match s.tabs.find? (fun t => t.id = s.activeTabId) with
  | none => none
  | some tab =>
    let k := jsOr tab.path tab.name
    if k = "" then none else some k

/-- The message handler for an inbound `"edit"` message: ignore own echoes,
apply only to the matching active tab, and only when strictly newer than the
`lastAppliedRemote` marker; on acceptance update the tab content, the source
buffer and the marker. -/
def wsHandleEdit (selfId : String) (s : StoreState) (marker : RemoteMarker)
    (msg : EditMsg) : StoreState × RemoteMarker :=
  if msg.clientId = selfId then (s, marker)
  else
    match s.tabs.find? (fun t => t.id = s.activeTabId) with
    | none => (s, marker)
    | some tab =>
      let activePath := jsOr tab.path tab.name
      if activePath = "" then (s, marker)
      else if activePath = msg.filePath then
        if msg.timestamp > marker.timestamp then
          (updateTabContent { s with source := msg.content } s.activeTabId msg.content,
           ⟨some msg.filePath, msg.timestamp⟩)
        else (s, marker)
      else (s, marker)

/-! ### Subscription effect (embedding of the subscribe/unsubscribe `useEffect`
on `[tabs, activeTabId]`) -/

/-- Outbound control/edit frames relevant to subscription tracking. -/
inductive WsOut where
  | subscribeMsg (path : String)
  | unsubscribeMsg (path : String)
  | unsubscribeAllMsg
deriving DecidableEq, Repr

/-- Transport-side state of the subscription effect:
whether the socket is open, the queued once-`open` handlers (each holding the
`activePath` captured when it was registered), the cleanup returned by the last
effect run (`some capturedPath` only for open-branch runs), and the trace of
frames sent so far. -/
structure SubState where
  wsOpen : Bool
  pendingOpen : List (Option String)
  cleanup : Option (Option String)
  sent : List WsOut
deriving DecidableEq, Repr

/-- Run the cleanup of the previous effect run (if any): it unsubscribes the
path it captured, provided the socket is open and the path is truthy. -/
def runCleanup (s : SubState) : SubState :=
  match s.cleanup with
  | some (some p) =>
    if s.wsOpen then { s with sent := s.sent ++ [.unsubscribeMsg p], cleanup := none }
    else { s with cleanup := none }
  | _ => { s with cleanup := none }

/-- One run of the subscription effect with the current active path:
if the socket is not open, register a once-`open` handler (no cleanup);
if open, send `unsubscribe-all` then subscribe the active path (returning a
cleanup that unsubscribes it). -/
def subEffectRun (s : SubState) (activePath : Option String) : SubState :=
  let s := runCleanup s
  if s.wsOpen then
    let s := { s with sent := s.sent ++ [WsOut.unsubscribeAllMsg] }
    match activePath with
    | some p => { s with sent := s.sent ++ [.subscribeMsg p], cleanup := some (some p) }
    | none => { s with cleanup := some none }
  else
    { s with pendingOpen := s.pendingOpen ++ [activePath], cleanup := none }

/-- The socket's `open` event: fire all queued once-`open` handlers in
registration order (each subscribes its captured path when truthy). -/
def sockOpenEvent (s : SubState) : SubState :=
  { s with wsOpen := true,
           sent := s.sent ++ (s.pendingOpen.filterMap id).map WsOut.subscribeMsg,
           pendingOpen := [] }

/-- External events driving the subscription effect. -/
inductive SubEvent where
  | tabChange (activePath : Option String)
  | sockOpen
deriving DecidableEq, Repr

/-- Step the subscription model by one event. An active-tab change reruns the
effect (cleanup first, per React semantics). -/
def subStep (s : SubState) : SubEvent → SubState
  | .tabChange activePath => subEffectRun s activePath
  | .sockOpen => sockOpenEvent s

/-- Run a sequence of events. -/
def subRun (s : SubState) (es : List SubEvent) : SubState :=
  es.foldl subStep s

/-- Initial transport state: socket created but not yet open, nothing sent. -/
def initialSub : SubState := ⟨false, [], none, []⟩

/-- Scanner for the claimed guarantee: between any two `subscribe` frames there
is an `unsubscribe`/`unsubscribe-all`. `armed` records whether a subscribe has
been seen with no unsubscribe after it. -/
def noDoubleSubFrom (armed : Bool) : List WsOut → Bool
  | [] => true
  | .subscribeMsg _ :: rest => if armed then false else noDoubleSubFrom true rest
  | .unsubscribeMsg _ :: rest => noDoubleSubFrom false rest
  | .unsubscribeAllMsg :: rest => noDoubleSubFrom false rest

/-- Whether a sent-frame trace never contains two subscribes without an
intervening unsubscribe. -/
def noDoubleSub (l : List WsOut) : Bool := noDoubleSubFrom false l

/-- The armed flag after scanning `l`. -/
def armedAfter (armed : Bool) : List WsOut → Bool
  | [] => armed
  | .subscribeMsg _ :: rest => armedAfter true rest
  | .unsubscribeMsg _ :: rest => armedAfter false rest
  | .unsubscribeAllMsg :: rest => armedAfter false rest

/-! ### Debounced publish effect (embedding of the `useEffect` on
`[source, activeTabId, tabs]` that schedules the 800 ms edit send) -/

/-- State of the debounced-send effect: socket openness, the pending timer's
captured `(path, content)` payload (if scheduled), whether the last effect run
returned a cleanup, and the trace of published `(path, content)` edits. -/
structure DebState where
  wsOpen : Bool
  pending : Option (String × String)
  hasCleanup : Bool
  sent : List (String × String)
deriving DecidableEq, Repr

/-- One run of the debounced-send effect after its dependencies changed:
React first runs the previous run's cleanup (which clears the pending timer),
then the effect body captures the current active path and source and schedules
a new send — unless the socket is closed or there is no active path, in which
case it returns without scheduling (and without a cleanup). -/
def debEffectRun (s : DebState) (activePath : Option String) (source : String) : DebState :=
  let s := if s.hasCleanup then { s with pending := none, hasCleanup := false } else s
  if s.wsOpen then
    match activePath with
    | some p => { s with pending := some (p, source), hasCleanup := true }
    | none => s
  else s

/-- The 800 ms timer firing: publish the captured payload, if still pending. -/
def debTimerFire (s : DebState) : DebState :=
  match s.pending with
  | some pc => { s with pending := none, sent := s.sent ++ [pc] }
  | none => s

/-! ### Rename flow (embedding of `handleConfirmInlineRename` + store `renameTab`) -/

/-- JS `String.prototype.trim`: drop whitespace from both ends (data-level,
so the kernel can evaluate it). -/
def jsTrim (s : String) : String :=
  String.mk (((s.data.dropWhile Char.isWhitespace).reverse.dropWhile Char.isWhitespace).reverse)

/-- The allowed file extensions checked locally before the remote rename. -/
def allowedExts : List String :=
  ["js", "jsx", "ts", "tsx", "py", "java", "c", "cpp", "rs", "go", "html", "css",
   "json", "md", "txt", "sh", "bash", "yml", "yaml"]

/-- The regex `/\.([a-z0-9]+)$/i` applied to a name: the final extension —
the text after the last `'.'` — provided it is nonempty and all alphanumeric;
captured lowercased as the code does. -/
def extOf (s : String) : Option String :=
  let r := s.data.reverse
  let ds := r.takeWhile (fun c => c.isAlphanum)
  if ds.isEmpty then none
  else
    match r.drop ds.length with
    | '.' :: _ => some (String.mk (ds.reverse.map Char.toLower))
    | _ => none

/-- Result of one rename attempt: the tab list afterwards, whether the remote
rename service was called, the local/inline error surfaced (if any), and
whether the "project structure changed" notification was broadcast. -/
structure RenameResult where
  tabs : List Tab
  remoteCalled : Bool
  editingError : Option String
  broadcast : Bool
deriving DecidableEq, Repr

/-- `handleConfirmInlineRename`, with the remote rename outcome supplied as a
parameter: `Except.error msg` is a rejected call carrying the server error
text, `Except.ok newPath` a success carrying `resp?.newPath || undefined`. -/
def handleConfirmInlineRename (tabs : List Tab) (tabId : String)
    (editingValue : String) (remote : Except String (Option String)) : RenameResult :=
  let trimmed := jsTrim editingValue
  if trimmed = "" then ⟨tabs, false, some "Please provide a name", false⟩
  else
    match extOf trimmed with
    | none => ⟨tabs, false, some "File extension required (e.g. main.cpp)", false⟩
    | some ext =>
      if ext ∈ allowedExts then
        match tabs.find? (fun t => t.id = tabId) with
        | none => ⟨tabs, false, none, false⟩
        | some _ =>
          match remote with
          | .error msg => ⟨tabs, true, some msg, false⟩
          | .ok newPath =>
            ⟨(renameTab ⟨tabs, "", 0, "", 0, 0⟩ tabId trimmed newPath).tabs, true, none, true⟩
      else ⟨tabs, false, some ("Unsupported extension '." ++ ext ++ "'."), false⟩

/-! ### Autosave tick (embedding of the auto-save `useEffect` interval body) -/

/-- `rawPath.startsWith("/") ? rawPath.slice(1) : rawPath` (data-level). -/
def stripLeadingSlash (s : String) : String :=
  match s.data with
  | '/' :: t => String.mk t
  | _ => s

/-- The store slice the autosave tick reads and writes. `unsavedFiles` is the
`{tabId: bool}` map, `saveStatus` the transient indicator. -/
structure AutoSaveState where
  tabs : List Tab
  activeTabId : String
  source : String
  unsavedFiles : List (String × Bool)
  isSaving : Bool
  saveStatus : Option String
deriving DecidableEq, Repr

/-- Lookup in the `unsavedFiles` map (missing keys are falsy). -/
def lookupUnsaved (m : List (String × Bool)) (tabId : String) : Bool :=
  match m.find? (fun p => p.1 = tabId) with
  | some p => p.2
  | none => false

/-- Set one entry of the `unsavedFiles` map (`setUnsavedFile`). -/
def setUnsavedFile (m : List (String × Bool)) (tabId : String) (v : Bool) :
    List (String × Bool) :=
  (tabId, v) :: m.filter (fun p => p.1 ≠ tabId)

/-- One autosave tick, with the remote save outcome supplied as a parameter
(`Except.error ()` a rejected call, `Except.ok success` a response with its
`success` flag). Returns the new state and the `(filePath, content)` of the
remote save request, `none` when the tick skipped. -/
def autoSaveTick (s : AutoSaveState) (remote : Except Unit Bool) :
    AutoSaveState × Option (String × String) :=
  if s.activeTabId = "" then (s, none)
  else if ¬ lookupUnsaved s.unsavedFiles s.activeTabId then (s, none)
  else
    match s.tabs.find? (fun t => t.id = s.activeTabId) with
    | none => (s, none)
    | some tab =>
      let rawPath := jsOr tab.path tab.name
      let filePath := stripLeadingSlash rawPath
      let content := tab.content
      match remote with
      | .ok success =>
        if success then
          ({ s with saveStatus := some "success",
                    unsavedFiles := setUnsavedFile s.unsavedFiles s.activeTabId false,
                    isSaving := false }, some (filePath, content))
        else
          ({ s with saveStatus := none, isSaving := false }, some (filePath, content))
      | .error _ =>
        ({ s with saveStatus := some "error", isSaving := false }, some (filePath, content))

/-! ### Theorems about inbound edit handling (C1–C3) -/

theorem activeCollabKey_elim (s : StoreState) (tab : Tab) (fp : String)
    (hfind : s.tabs.find? (fun t => t.id = s.activeTabId) = some tab)
    (hkey : activeCollabKey s = some fp) :
    jsOr tab.path tab.name = fp ∧ jsOr tab.path tab.name ≠ "" := by
  unfold activeCollabKey at hkey
  rw [hfind] at hkey
  by_cases h : jsOr tab.path tab.name = ""
  · simp [h] at hkey
  · simp only [if_neg h, Option.some.injEq] at hkey
    exact ⟨hkey, h⟩

theorem wsHandleEdit_stale_unchanged (selfId : String) (s : StoreState)
    (marker : RemoteMarker) (msg : EditMsg) (h : ¬ marker.timestamp < msg.timestamp) :
    wsHandleEdit selfId s marker msg = (s, marker) := by
  unfold wsHandleEdit
  by_cases h1 : msg.clientId = selfId
  · simp [h1]
  · simp only [if_neg h1]
    cases hfind : s.tabs.find? (fun t => t.id = s.activeTabId) with
    | none => rfl
    | some tab =>
      simp only
      by_cases h2 : jsOr tab.path tab.name = ""
      · simp [h2]
      · simp only [if_neg h2]
        by_cases h3 : jsOr tab.path tab.name = msg.filePath
        · have h4 : ¬ msg.timestamp > marker.timestamp := by omega
          simp [h3, h4]
        · simp [h3]

theorem wsHandleEdit_accept (selfId : String) (s : StoreState) (marker : RemoteMarker)
    (msg : EditMsg) (hself : msg.clientId ≠ selfId)
    (hkey : activeCollabKey s = some msg.filePath)
    (hts : marker.timestamp < msg.timestamp) :
    wsHandleEdit selfId s marker msg =
      (updateTabContent { s with source := msg.content } s.activeTabId msg.content,
       ⟨some msg.filePath, msg.timestamp⟩) := by
  have hfind : ∃ tab, s.tabs.find? (fun t => t.id = s.activeTabId) = some tab := by
    unfold activeCollabKey at hkey
    cases hf : s.tabs.find? (fun t => t.id = s.activeTabId) with
    | none => rw [hf] at hkey; simp at hkey
    | some tab => exact ⟨tab, rfl⟩
  obtain ⟨tab, hfind⟩ := hfind
  obtain ⟨h3, h2⟩ := activeCollabKey_elim s tab msg.filePath hfind hkey
  unfold wsHandleEdit
  rw [if_neg hself, hfind]
  simp only
  rw [if_neg h2, if_pos h3, if_pos (by omega : msg.timestamp > marker.timestamp)]

theorem wsHandleEdit_no_key_match (selfId : String) (s : StoreState)
    (marker : RemoteMarker) (msg : EditMsg)
    (hkey : activeCollabKey s ≠ some msg.filePath) :
    wsHandleEdit selfId s marker msg = (s, marker) := by
  unfold wsHandleEdit
  by_cases h1 : msg.clientId = selfId
  · simp [h1]
  · simp only [if_neg h1]
    cases hfind : s.tabs.find? (fun t => t.id = s.activeTabId) with
    | none => rfl
    | some tab =>
      simp only
      by_cases h2 : jsOr tab.path tab.name = ""
      · simp [h2]
      · simp only [if_neg h2]
        by_cases h3 : jsOr tab.path tab.name = msg.filePath
        · exfalso
          apply hkey
          unfold activeCollabKey
          rw [hfind]
          simp only
          rw [if_neg h2, h3]
        · simp [h3]

/-- C1. An inbound edit for the active tab's collaboration key from another
client is applied (content written to the active tab and the source buffer,
marker advanced to the message's `{filePath, timestamp}`) exactly when its
timestamp is strictly greater than the marker's; otherwise nothing changes.
Consequently a message with smaller timestamp delivered after an applied one
is rejected and content stays at the newer value. -/
theorem wsHandleEdit_applies_iff_newer (selfId : String) (s : StoreState)
    (marker : RemoteMarker) (msg : EditMsg) (hself : msg.clientId ≠ selfId)
    (hkey : activeCollabKey s = some msg.filePath) :
    (marker.timestamp < msg.timestamp →
      (wsHandleEdit selfId s marker msg).1.source = msg.content ∧
      (∀ t ∈ (wsHandleEdit selfId s marker msg).1.tabs,
        t.id = s.activeTabId → t.content = msg.content) ∧
      (wsHandleEdit selfId s marker msg).2 = ⟨some msg.filePath, msg.timestamp⟩) ∧
    (¬ marker.timestamp < msg.timestamp →
      wsHandleEdit selfId s marker msg = (s, marker)) ∧
    (∀ msg2 : EditMsg, msg2.timestamp < msg.timestamp →
      marker.timestamp < msg.timestamp →
      wsHandleEdit selfId (wsHandleEdit selfId s marker msg).1
        (wsHandleEdit selfId s marker msg).2 msg2 = wsHandleEdit selfId s marker msg) := by
  refine ⟨?_, ?_, ?_⟩
  · intro hts
    rw [wsHandleEdit_accept selfId s marker msg hself hkey hts]
    refine ⟨rfl, ?_, rfl⟩
    intro t ht hid
    simp only [updateTabContent, List.mem_map] at ht
    obtain ⟨t0, _, rfl⟩ := ht
    by_cases h0 : t0.id = s.activeTabId
    · simp [h0]
    · simp only [if_neg h0] at hid ⊢
      exact absurd hid h0
  · exact wsHandleEdit_stale_unchanged selfId s marker msg
  · intro msg2 h2 hts
    rw [wsHandleEdit_accept selfId s marker msg hself hkey hts]
    exact wsHandleEdit_stale_unchanged selfId _ _ msg2 (by simp; omega)

/-- C2. An inbound edit whose `clientId` equals this client's own identifier
mutates neither the store, nor the source buffer, nor the marker. -/
theorem wsHandleEdit_self_echo_rejected (selfId : String) (s : StoreState)
    (marker : RemoteMarker) (msg : EditMsg) (h : msg.clientId = selfId) :
    wsHandleEdit selfId s marker msg = (s, marker) := by
  simp [wsHandleEdit, h]

/-- C3. An inbound edit whose `filePath` differs from the active tab's
collaboration key changes no Tab Store entry and leaves the source buffer
unchanged: every tab's fields are the same before and after. -/
theorem wsHandleEdit_inactive_path_frame (selfId : String) (s : StoreState)
    (marker : RemoteMarker) (msg : EditMsg)
    (hkey : activeCollabKey s ≠ some msg.filePath) :
    wsHandleEdit selfId s marker msg = (s, marker) ∧
    (wsHandleEdit selfId s marker msg).1.tabs = s.tabs ∧
    (wsHandleEdit selfId s marker msg).1.source = s.source := by
  have h := wsHandleEdit_no_key_match selfId s marker msg hkey
  exact ⟨h, by rw [h], by rw [h]⟩

/-- Example tab/state/marker/message used by the handler witnesses. -/
def exTab : Tab := ⟨"tab-1", "main.py", "old content", true, 71, some "main.py"⟩

def exState : StoreState := ⟨[exTab], "tab-1", 1, "old content", 71, 0⟩

def exMarker : RemoteMarker := ⟨none, 0⟩

def exMsg : EditMsg := ⟨"main.py", "x=1", "B", 1000⟩

def exMsgOther : EditMsg := ⟨"other.py", "y=2", "B", 5000⟩

theorem wsHandleEdit_applies_iff_newer_witness :
    (wsHandleEdit "A" exState exMarker exMsg).1.source = "x=1" ∧
    (wsHandleEdit "A" exState exMarker exMsg).2 = ⟨some "main.py", 1000⟩ := by
  have h := wsHandleEdit_applies_iff_newer "A" exState exMarker exMsg
    (by decide) (by decide)
  exact ⟨(h.1 (by decide)).1, (h.1 (by decide)).2.2⟩

theorem wsHandleEdit_self_echo_rejected_witness :
    wsHandleEdit "B" exState exMarker exMsg = (exState, exMarker) :=
  wsHandleEdit_self_echo_rejected "B" exState exMarker exMsg (by decide)

theorem wsHandleEdit_inactive_path_frame_witness :
    wsHandleEdit "A" exState exMarker exMsgOther = (exState, exMarker) :=
  (wsHandleEdit_inactive_path_frame "A" exState exMarker exMsgOther (by decide)).1

/-! ### Theorems about the subscription effect (C4) -/

theorem noDoubleSubFrom_append (a : Bool) (xs ys : List WsOut) :
    noDoubleSubFrom a (xs ++ ys) =
      (noDoubleSubFrom a xs && noDoubleSubFrom (armedAfter a xs) ys) := by
  induction xs generalizing a with
  | nil => simp [noDoubleSubFrom, armedAfter]
  | cons x xs ih =>
    cases x with
    | subscribeMsg p =>
      cases a
      · simpa [noDoubleSubFrom, armedAfter] using ih true
      · simp [noDoubleSubFrom, armedAfter]
    | unsubscribeMsg p => simp only [List.cons_append, noDoubleSubFrom, armedAfter]; exact ih false
    | unsubscribeAllMsg => simp only [List.cons_append, noDoubleSubFrom, armedAfter]; exact ih false

/-- C4 counterexample: two active-tab changes before the socket opens register
two once-`open` subscribe handlers; at `open` both subscribes are sent with no
intervening unsubscribe, contradicting the claimed invariant. -/
theorem subscription_preopen_counterexample :
    (subRun initialSub
      [SubEvent.tabChange (some "a.py"), SubEvent.tabChange (some "b.py"),
       SubEvent.sockOpen]).sent =
      [WsOut.subscribeMsg "a.py", WsOut.subscribeMsg "b.py"] ∧
    noDoubleSub (subRun initialSub
      [SubEvent.tabChange (some "a.py"), SubEvent.tabChange (some "b.py"),
       SubEvent.sockOpen]).sent = false := by
  constructor <;> rfl

theorem subStep_safe (s : SubState) (e : SubEvent) (hopen : s.wsOpen = true)
    (hpend : s.pendingOpen = []) (hsent : noDoubleSub s.sent = true) :
    noDoubleSub (subStep s e).sent = true ∧ (subStep s e).wsOpen = true ∧
    (subStep s e).pendingOpen = [] := by
  cases e with
  | sockOpen =>
    simp [subStep, sockOpenEvent, hpend, hopen, hsent]
  | tabChange p =>
    have hblock : ∀ tail : List WsOut, (∀ a, noDoubleSubFrom a tail = true) →
        (subStep s (SubEvent.tabChange p)).sent = s.sent ++ tail →
        noDoubleSub (subStep s (SubEvent.tabChange p)).sent = true := by
      intro tail htail heq
      rw [heq]
      unfold noDoubleSub
      rw [noDoubleSubFrom_append]
      unfold noDoubleSub at hsent
      rw [hsent, htail]
      rfl
    have hmain : noDoubleSub (subStep s (SubEvent.tabChange p)).sent = true := by
      cases hc : s.cleanup with
      | none =>
        cases p with
        | none =>
          apply hblock [WsOut.unsubscribeAllMsg] (by intro a; simp [noDoubleSubFrom])
          simp [subStep, subEffectRun, runCleanup, hc, hopen]
        | some q =>
          apply hblock [WsOut.unsubscribeAllMsg, WsOut.subscribeMsg q]
            (by intro a; simp [noDoubleSubFrom])
          simp [subStep, subEffectRun, runCleanup, hc, hopen]
      | some prev =>
        cases prev with
        | none =>
          cases p with
          | none =>
            apply hblock [WsOut.unsubscribeAllMsg] (by intro a; simp [noDoubleSubFrom])
            simp [subStep, subEffectRun, runCleanup, hc, hopen]
          | some q =>
            apply hblock [WsOut.unsubscribeAllMsg, WsOut.subscribeMsg q]
              (by intro a; simp [noDoubleSubFrom])
            simp [subStep, subEffectRun, runCleanup, hc, hopen]
        | some r =>
          cases p with
          | none =>
            apply hblock [WsOut.unsubscribeMsg r, WsOut.unsubscribeAllMsg]
              (by intro a; simp [noDoubleSubFrom])
            simp [subStep, subEffectRun, runCleanup, hc, hopen]
          | some q =>
            apply hblock [WsOut.unsubscribeMsg r, WsOut.unsubscribeAllMsg, WsOut.subscribeMsg q]
              (by intro a; simp [noDoubleSubFrom])
            simp [subStep, subEffectRun, runCleanup, hc, hopen]
    refine ⟨hmain, ?_, ?_⟩
    · cases hc : s.cleanup with
      | none => simp [subStep, subEffectRun, runCleanup, hc, hopen]; cases p <;> simp [hopen]
      | some prev =>
        cases prev <;> simp [subStep, subEffectRun, runCleanup, hc, hopen] <;> cases p <;> simp [hopen]
    · cases hc : s.cleanup with
      | none => simp [subStep, subEffectRun, runCleanup, hc, hopen, hpend]; cases p <;> simp [hopen, hpend]
      | some prev =>
        cases prev <;> simp [subStep, subEffectRun, runCleanup, hc, hopen, hpend] <;>
          cases p <;> simp [hopen, hpend]

/-- C4 amended: once the socket is open and no deferred once-`open` handlers
are queued, every further sequence of events (active-tab changes in
particular) keeps the trace free of two subscribes without an intervening
unsubscribe: each open-channel effect run sends `unsubscribe-all` before its
`subscribe`. Changes performed before the channel opens are not covered (see
the counterexample). -/
theorem subscription_single_active_corrected (s : SubState) (hopen : s.wsOpen = true)
    (hpend : s.pendingOpen = []) (hsent : noDoubleSub s.sent = true)
    (es : List SubEvent) :
    noDoubleSub (subRun s es).sent = true ∧ (subRun s es).wsOpen = true ∧
    (subRun s es).pendingOpen = [] := by
  induction es generalizing s with
  | nil => exact ⟨hsent, hopen, hpend⟩
  | cons e es ih =>
    have h := subStep_safe s e hopen hpend hsent
    exact ih (subStep s e) h.2.1 h.2.2 h.1

theorem subscription_single_active_corrected_witness :
    noDoubleSub (subRun ⟨true, [], none, []⟩
      [SubEvent.tabChange (some "a.py"), SubEvent.tabChange (some "b.py")]).sent = true :=
  (subscription_single_active_corrected ⟨true, [], none, []⟩ (by decide) (by decide)
    (by decide) [SubEvent.tabChange (some "a.py"), SubEvent.tabChange (some "b.py")]).1

/-! ### Theorems about the debounced publish (C5) -/

/-- C5 counterexample: a publish scheduled for `a.py` is cancelled when the
active tab switches to `b.py` inside the quiet window — the effect cleanup
clears the timeout — so only a publish for `b.py` ever fires; nothing with the
path captured at the original schedule time is sent. -/
theorem debounce_pending_counterexample :
    (debEffectRun ⟨true, none, false, []⟩ (some "a.py") "content A").pending =
      some ("a.py", "content A") ∧
    (debTimerFire (debEffectRun (debEffectRun ⟨true, none, false, []⟩
      (some "a.py") "content A") (some "b.py") "content B")).sent =
      [("b.py", "content B")] ∧
    ("a.py", "content A") ∉ (debTimerFire (debEffectRun (debEffectRun
      ⟨true, none, false, []⟩ (some "a.py") "content A")
      (some "b.py") "content B")).sent ∧
    (debTimerFire (debEffectRun (debEffectRun ⟨true, none, false, []⟩
      (some "a.py") "content A") (some "b.py") "content B")).pending = none := by
  refine ⟨rfl, rfl, ?_, rfl⟩
  decide

/-- C5 amended: switching the active tab (an effect rerun with a new path)
before the quiet window elapses cancels the pending publish rather than letting
it fire: nothing is sent during the switch, the pending slot is replaced by a
publish for the new path with the content captured at the new schedule time,
and a subsequent timer fire publishes exactly that. -/
theorem debounce_cancelled_on_switch (s : DebState) (p : String) (src : String)
    (hopen : s.wsOpen = true) :
    (debEffectRun s (some p) src).sent = s.sent ∧
    (debEffectRun s (some p) src).pending = some (p, src) ∧
    (debTimerFire (debEffectRun s (some p) src)).sent = s.sent ++ [(p, src)] := by
  cases hcl : s.hasCleanup <;>
    simp [debEffectRun, debTimerFire, hopen, hcl]

theorem debounce_cancelled_on_switch_witness :
    (debEffectRun ⟨true, some ("a.py", "content A"), true, []⟩ (some "b.py") "content B").sent = [] ∧
    (debEffectRun ⟨true, some ("a.py", "content A"), true, []⟩ (some "b.py") "content B").pending =
      some ("b.py", "content B") ∧
    (debTimerFire (debEffectRun ⟨true, some ("a.py", "content A"), true, []⟩
      (some "b.py") "content B")).sent = [("b.py", "content B")] :=
  debounce_cancelled_on_switch ⟨true, some ("a.py", "content A"), true, []⟩
    "b.py" "content B" (by decide)

/-! ### Theorems about the rename flow (C8) -/

/-- C8. Rename validation and atomicity: an empty, extension-less or
disallowed-extension name fails locally with an error before any remote call
and with no store change; a failing remote rename leaves the store untouched
and surfaces the server error text; only a successful remote rename updates the
tab (new trimmed name, custom-name flag, confirmed path) and broadcasts the
structure-changed notification. -/
theorem renameFlow_validation_and_atomicity (tabs : List Tab) (tabId : String)
    (editingValue : String) (remote : Except String (Option String)) :
    (extOf (jsTrim editingValue) = none →
      (handleConfirmInlineRename tabs tabId editingValue remote).remoteCalled = false ∧
      (handleConfirmInlineRename tabs tabId editingValue remote).tabs = tabs ∧
      (handleConfirmInlineRename tabs tabId editingValue remote).editingError.isSome = true) ∧
    (∀ e, extOf (jsTrim editingValue) = some e → e ∉ allowedExts →
      (handleConfirmInlineRename tabs tabId editingValue remote).remoteCalled = false ∧
      (handleConfirmInlineRename tabs tabId editingValue remote).tabs = tabs ∧
      (handleConfirmInlineRename tabs tabId editingValue remote).editingError.isSome = true) ∧
    (∀ e, extOf (jsTrim editingValue) = some e → e ∈ allowedExts →
      (tabs.find? (fun t => t.id = tabId)).isSome = true →
      (∀ err, remote = .error err →
        (handleConfirmInlineRename tabs tabId editingValue remote).tabs = tabs ∧
        (handleConfirmInlineRename tabs tabId editingValue remote).remoteCalled = true ∧
        (handleConfirmInlineRename tabs tabId editingValue remote).editingError = some err ∧
        (handleConfirmInlineRename tabs tabId editingValue remote).broadcast = false) ∧
      (∀ np, remote = .ok np →
        (handleConfirmInlineRename tabs tabId editingValue remote).tabs =
          tabs.map (fun t => if t.id = tabId then
            { t with name := jsTrim editingValue, isCustomName := true,
                     path := match np with | some p => some p | none => t.path }
            else t) ∧
        (handleConfirmInlineRename tabs tabId editingValue remote).remoteCalled = true ∧
        (handleConfirmInlineRename tabs tabId editingValue remote).editingError = none ∧
        (handleConfirmInlineRename tabs tabId editingValue remote).broadcast = true)) := by
  refine ⟨?_, ?_, ?_⟩
  · intro hext
    by_cases htr : jsTrim editingValue = ""
    · simp [handleConfirmInlineRename, htr]
    · simp [handleConfirmInlineRename, htr, hext]
  · intro e hext hnotin
    have htr : jsTrim editingValue ≠ "" := by
      intro h
      rw [h] at hext
      simp [extOf] at hext
    simp only [handleConfirmInlineRename, if_neg htr]
    rw [hext]
    simp [if_neg hnotin]
  · intro e hext hin hfind
    have htr : jsTrim editingValue ≠ "" := by
      intro h
      rw [h] at hext
      simp [extOf] at hext
    obtain ⟨orig, horig⟩ := Option.isSome_iff_exists.mp hfind
    constructor
    · intro err herr
      subst herr
      simp [handleConfirmInlineRename, htr, hext, hin, horig]
    · intro np hnp
      subst hnp
      simp [handleConfirmInlineRename, htr, hext, hin, horig, renameTab]

theorem renameFlow_validation_and_atomicity_witness :
    (handleConfirmInlineRename [exTab] "tab-1" "nope" (.ok none)).remoteCalled = false ∧
    (handleConfirmInlineRename [exTab] "tab-1" " app.ts " (.error "boom")).tabs = [exTab] ∧
    (handleConfirmInlineRename [exTab] "tab-1" " app.ts " (.error "boom")).editingError = some "boom" ∧
    (handleConfirmInlineRename [exTab] "tab-1" "app.ts" (.ok (some "src/app.ts"))).tabs =
      [{ exTab with name := "app.ts", isCustomName := true, path := some "src/app.ts" }] := by
  refine ⟨?_, ?_, ?_, ?_⟩
  · exact ((renameFlow_validation_and_atomicity [exTab] "tab-1" "nope" (.ok none)).1
      (by decide)).1
  · exact (((renameFlow_validation_and_atomicity [exTab] "tab-1" " app.ts "
      (.error "boom")).2.2 "ts" (by decide) (by decide) (by decide)).1 "boom" rfl).1
  · exact (((renameFlow_validation_and_atomicity [exTab] "tab-1" " app.ts "
      (.error "boom")).2.2 "ts" (by decide) (by decide) (by decide)).1 "boom" rfl).2.2.1
  · have h := (((renameFlow_validation_and_atomicity [exTab] "tab-1" "app.ts"
      (.ok (some "src/app.ts"))).2.2 "ts" (by decide) (by decide) (by decide)).2
      (some "src/app.ts") rfl).1
    rw [h]
    decide

/-! ### Theorems about the autosave tick (C9) -/

/-- C9. Autosave tick behavior: with no active tab or no unsaved flag the tick
performs no remote save and changes nothing; with the flag set it saves the
active tab's path (leading slash stripped) and content, and a successful
response clears the unsaved flag and sets the "success" status while a failed
call sets the "error" status and leaves the flag set. -/
theorem autoSaveTick_behavior (s : AutoSaveState) (remote : Except Unit Bool) :
    (s.activeTabId = "" → autoSaveTick s remote = (s, none)) ∧
    (lookupUnsaved s.unsavedFiles s.activeTabId = false → autoSaveTick s remote = (s, none)) ∧
    (s.tabs.find? (fun t => t.id = s.activeTabId) = none → autoSaveTick s remote = (s, none)) ∧
    (∀ tab, s.tabs.find? (fun t => t.id = s.activeTabId) = some tab →
      lookupUnsaved s.unsavedFiles s.activeTabId = true → s.activeTabId ≠ "" →
      (autoSaveTick s remote).2 = some
        (stripLeadingSlash (jsOr tab.path tab.name), tab.content) ∧
      (remote = .ok true →
        (autoSaveTick s remote).1.saveStatus = some "success" ∧
        lookupUnsaved (autoSaveTick s remote).1.unsavedFiles s.activeTabId = false) ∧
      (∀ u, remote = .error u →
        (autoSaveTick s remote).1.saveStatus = some "error" ∧
        lookupUnsaved (autoSaveTick s remote).1.unsavedFiles s.activeTabId = true)) := by
  refine ⟨?_, ?_, ?_, ?_⟩
  · intro h
    simp [autoSaveTick, h]
  · intro h
    by_cases ha : s.activeTabId = ""
    · simp [autoSaveTick, ha]
    · simp [autoSaveTick, ha, h]
  · intro h
    by_cases ha : s.activeTabId = ""
    · simp [autoSaveTick, ha]
    · by_cases hu : lookupUnsaved s.unsavedFiles s.activeTabId
      · simp [autoSaveTick, ha, hu, h]
      · simp [autoSaveTick, ha, hu]
  · intro tab hfind hu ha
    refine ⟨?_, ?_, ?_⟩
    · cases remote with
      | ok success =>
        cases success <;> simp [autoSaveTick, ha, hu, hfind]
      | error u => simp [autoSaveTick, ha, hu, hfind]
    · intro hr
      subst hr
      have hstep : autoSaveTick s (Except.ok true) =
          ({ s with saveStatus := some "success",
                    unsavedFiles := setUnsavedFile s.unsavedFiles s.activeTabId false,
                    isSaving := false },
           some (stripLeadingSlash (jsOr tab.path tab.name), tab.content)) := by
        simp [autoSaveTick, ha, hu, hfind]
      rw [hstep]
      exact ⟨rfl, by simp [lookupUnsaved, setUnsavedFile]⟩
    · intro u hr
      subst hr
      have hstep : autoSaveTick s (Except.error u) =
          ({ s with saveStatus := some "error", isSaving := false },
           some (stripLeadingSlash (jsOr tab.path tab.name), tab.content)) := by
        simp [autoSaveTick, ha, hu, hfind]
      rw [hstep]
      exact ⟨rfl, by simpa using hu⟩

theorem autoSaveTick_behavior_witness :
    (autoSaveTick ⟨[exTab], "tab-1", "old content", [("tab-1", true)], false, none⟩
      (.ok true)).2 = some ("main.py", "old content") ∧
    (autoSaveTick ⟨[exTab], "tab-1", "old content", [("tab-1", true)], false, none⟩
      (.ok true)).1.saveStatus = some "success" ∧
    (autoSaveTick ⟨[exTab], "tab-1", "old content", [("tab-1", true)], false, none⟩
      (.error ())).1.saveStatus = some "error" := by
  have h1 := (autoSaveTick_behavior
    ⟨[exTab], "tab-1", "old content", [("tab-1", true)], false, none⟩ (.ok true)).2.2.2
    exTab (by decide) (by decide) (by decide)
  have h2 := (autoSaveTick_behavior
    ⟨[exTab], "tab-1", "old content", [("tab-1", true)], false, none⟩ (.error ())).2.2.2
    exTab (by decide) (by decide) (by decide)
  refine ⟨?_, (h1.2.1 rfl).1, (h2.2.2 () rfl).1⟩
  have h0 := h1.1
  rw [h0]
  rfl

/-! ### Theorems about the Tab Store invariant (C6) -/

theorem getD_mem {α : Type} (l : List α) (i : Nat) (d : α) (hd : d ∈ l) :
    l.getD i d ∈ l := by
  have : l.getD i d = (l.get? i).getD d := by simp [List.getD]
  rw [this]
  cases h : l.get? i with
  | none => simpa using hd
  | some a => simpa using List.get?_mem h

/-- The Tab Store invariant: at least one tab, and `activeTabId` references an
existing tab. -/
def storeInv (s : StoreState) : Prop :=
  s.tabs ≠ [] ∧ ∃ t ∈ s.tabs, t.id = s.activeTabId

theorem storeInv_map (s : StoreState) (f : Tab → Tab) (hid : ∀ t, (f t).id = t.id)
    (h : storeInv s) : storeInv { s with tabs := s.tabs.map f } := by
  obtain ⟨hne, t0, ht0, hid0⟩ := h
  refine ⟨by simpa using hne, f t0, List.mem_map_of_mem f ht0, ?_⟩
  rw [hid t0]
  exact hid0

theorem storeInv_closeTab (s : StoreState) (tabId : String) (h : storeInv s) :
    storeInv (closeTab s tabId) := by
  unfold closeTab
  by_cases h1 : s.tabs.length = 1
  · simpa [h1] using h
  · simp only [if_neg h1]
    cases hidx : s.tabs.findIdx? (fun t => t.id = tabId) with
    | none => exact h
    | some index =>
      simp only
      cases hnext : s.tabs.filter (fun t => t.id ≠ tabId) with
      | nil => exact h
      | cons first rest =>
        simp only
        constructor
        · simp
        · by_cases hact : tabId = s.activeTabId
          · refine ⟨(first :: rest).getD (index - 1) first, ?_, ?_⟩
            · exact getD_mem _ _ _ (by simp)
            · simp [hact]
          · obtain ⟨_, t0, ht0, hid0⟩ := h
            have hmem : t0 ∈ s.tabs.filter (fun t => t.id ≠ tabId) := by
              rw [List.mem_filter]
              refine ⟨ht0, ?_⟩
              simp only [decide_eq_true_eq]
              rw [hid0]
              exact fun hh => hact hh.symm
            rw [hnext] at hmem
            exact ⟨t0, hmem, by simp [hact, hid0]⟩

theorem storeInv_deleteTab (dn : Nat → String) (s : StoreState) (tabId : String)
    (h : storeInv s) : storeInv (deleteTab dn s tabId) := by
  unfold deleteTab
  by_cases h1 : s.tabs.length = 1 ∧ (s.tabs.head?.map (fun t => t.id)) = some tabId
  · simp only [if_pos h1]
    exact ⟨by simp, ⟨"tab-1", dn s.languageId, "", false, s.languageId, none⟩, by simp, rfl⟩
  · simp only [if_neg h1]
    cases hnext : s.tabs.filter (fun t => t.id ≠ tabId) with
    | nil => exact h
    | cons first rest =>
      simp only
      constructor
      · simp
      · by_cases hact : tabId = s.activeTabId
        · refine ⟨(first :: rest).getD
            (match s.tabs.findIdx? (fun t => t.id = tabId) with
             | some i => i - 1
             | none => 0) first, ?_, ?_⟩
          · exact getD_mem _ _ _ (by simp)
          · simp [hact]
        · obtain ⟨_, t0, ht0, hid0⟩ := h
          have hmem : t0 ∈ s.tabs.filter (fun t => t.id ≠ tabId) := by
            rw [List.mem_filter]
            refine ⟨ht0, ?_⟩
            simp only [decide_eq_true_eq]
            rw [hid0]
            exact fun hh => hact hh.symm
          rw [hnext] at hmem
          exact ⟨t0, hmem, by simp [hact, hid0]⟩

theorem exists_mem_append_self (l : List Tab) (nt : Tab) :
    ∃ t ∈ l ++ [nt], t.id = nt.id := ⟨nt, by simp, rfl⟩

theorem storeInv_applyOp (dn : Nat → String) (s : StoreState) (op : TabOp)
    (h : storeInv s) : storeInv (applyOp dn s op) := by
  cases op with
  | addTabOp =>
    show storeInv (addTab dn s)
    unfold addTab
    exact ⟨by simp, exists_mem_append_self _ _⟩
  | createTabOp name content isCustomName path =>
    show storeInv (createTab dn s name content isCustomName path)
    unfold createTab
    exact ⟨by simp, exists_mem_append_self _ _⟩
  | selectTabOp tabId =>
    show storeInv (selectTab s tabId)
    unfold selectTab
    cases htabs : s.tabs with
    | nil => exact h
    | cons first rest =>
      refine ⟨by simp, ?_⟩
      cases hfind : (first :: rest).find? (fun t => t.id = tabId) with
      | none =>
        refine ⟨first, by simp, ?_⟩
        simp [hfind]
      | some tab =>
        refine ⟨tab, List.mem_of_find?_eq_some hfind, ?_⟩
        simp [hfind]
  | updateTabContentOp tabId content =>
    exact storeInv_map s _ (by intro t; by_cases ht : t.id = tabId <;> simp [ht]) h
  | renameTabOp tabId newName newPath =>
    exact storeInv_map s _ (by intro t; by_cases ht : t.id = tabId <;> simp [ht]) h
  | duplicateTabOp tabId =>
    show storeInv (duplicateTab s tabId)
    unfold duplicateTab
    cases hfind : s.tabs.find? (fun t => t.id = tabId) with
    | none => exact h
    | some original =>
      exact ⟨by simp, exists_mem_append_self _ _⟩
  | closeTabOp tabId => exact storeInv_closeTab s tabId h
  | closeOthersOp tabId =>
    show storeInv (closeOthers s tabId)
    unfold closeOthers
    cases htabs : s.tabs with
    | nil => exact h
    | cons first rest => exact ⟨by simp, _, List.mem_singleton_self _, rfl⟩
  | closeAllOp =>
    show storeInv (closeAll dn s)
    unfold closeAll
    exact ⟨by simp, _, List.mem_singleton_self _, rfl⟩
  | deleteTabOp tabId => exact storeInv_deleteTab dn s tabId h

theorem storeInv_foldl (dn : Nat → String) (ops : List TabOp) :
    ∀ s : StoreState, storeInv s → storeInv (ops.foldl (applyOp dn) s) := by
  induction ops with
  | nil => intro s h; exact h
  | cons op ops ih =>
    intro s h
    exact ih (applyOp dn s op) (storeInv_applyOp dn s op h)

/-- C6. For every sequence of Tab Store operations from the initial state the
store holds at least one tab and `activeTabId` references an existing tab;
`closeTab` with a single remaining tab is a no-op, and `deleteTab` of the last
remaining tab resets to a single fresh default tab. -/
theorem tabStore_never_empty (dn : Nat → String) :
    (∀ ops : List TabOp, storeInv (ops.foldl (applyOp dn) (initialState dn))) ∧
    (∀ (s : StoreState) (tabId : String), s.tabs.length = 1 → closeTab s tabId = s) ∧
    (∀ (s : StoreState) (t : Tab), s.tabs = [t] → deleteTab dn s t.id =
      { s with tabs := [⟨"tab-1", dn s.languageId, "", false, s.languageId, none⟩],
               activeTabId := "tab-1", nextTabCounter := 1, source := "",
               leaderboardTick := s.leaderboardTick + 1 }) := by
  refine ⟨?_, ?_, ?_⟩
  · intro ops
    apply storeInv_foldl
    exact ⟨by simp [initialState], ⟨"tab-1", dn 63, welcomeContent, false, 63, none⟩,
      by simp [initialState], rfl⟩
  · intro s tabId hlen
    unfold closeTab
    rw [if_pos hlen]
  · intro s t ht
    unfold deleteTab
    rw [if_pos (by simp [ht])]

theorem tabStore_never_empty_witness :
    storeInv ([TabOp.addTabOp, TabOp.closeTabOp "tab-2"].foldl
      (applyOp (fun _ => "main.js")) (initialState (fun _ => "main.js"))) ∧
    closeTab exState "tab-1" = exState ∧
    deleteTab (fun _ => "main.js") exState "tab-1" =
      { exState with tabs := [⟨"tab-1", "main.js", "", false, 71, none⟩],
                     activeTabId := "tab-1", nextTabCounter := 1, source := "",
                     leaderboardTick := 1 } := by
  refine ⟨(tabStore_never_empty (fun _ => "main.js")).1 _,
    (tabStore_never_empty (fun _ => "main.js")).2.1 exState "tab-1" (by decide), ?_⟩
  have h := (tabStore_never_empty (fun _ => "main.js")).2.2 exState exTab (by decide)
  exact h.trans (by decide)

/-! ### Theorems about duplicate naming (C7, C10) -/

theorem duplicateTab_spec (s : StoreState) (tabId : String) (orig : Tab)
    (hfind : s.tabs.find? (fun t => t.id = tabId) = some orig) :
    (duplicateTab s tabId).tabs = s.tabs ++
      [⟨"tab-" ++ natRepr (s.nextTabCounter + 1),
        genCopyName (safeBase orig.name) (s.tabs.map (fun t => t.name)),
        orig.content, true, orig.languageId, none⟩] := by
  unfold duplicateTab
  rw [hfind]

/-- Example state for C7: duplicating `main.py` while `main.py Copy` exists. -/
def mainPyState : StoreState :=
  ⟨[⟨"tab-1", "main.py", "print(1)", true, 71, some "main.py"⟩,
    ⟨"tab-2", "main.py Copy", "print(1)", true, 71, none⟩],
   "tab-1", 2, "print(1)", 71, 0⟩

/-- C7. `duplicateTab` appends a new tab whose name collides with no current
tab name (candidates `… Copy`, `… Copy N` are tried for increasing `N`);
in particular duplicating `main.py` when `main.py Copy` exists yields
`main.py Copy 2`. -/
theorem duplicateTab_noncolliding_name :
    (∀ (s : StoreState) (tabId : String) (orig : Tab),
      s.tabs.find? (fun t => t.id = tabId) = some orig →
      ∃ d : Tab, (duplicateTab s tabId).tabs = s.tabs ++ [d] ∧
        d.name ∉ s.tabs.map (fun t => t.name)) ∧
    (duplicateTab mainPyState "tab-1").tabs.map (fun t => t.name) =
      ["main.py", "main.py Copy", "main.py Copy 2"] := by
  constructor
  · intro s tabId orig hfind
    exact ⟨_, duplicateTab_spec s tabId orig hfind, genCopyName_fresh _ _⟩
  · decide

theorem duplicateTab_noncolliding_name_witness :
    ∃ d : Tab, (duplicateTab mainPyState "tab-1").tabs = mainPyState.tabs ++ [d] ∧
      d.name ∉ mainPyState.tabs.map (fun t => t.name) :=
  (duplicateTab_noncolliding_name).1 mainPyState "tab-1"
    ⟨"tab-1", "main.py", "print(1)", true, 71, some "main.py"⟩ (by decide)

/-- Example state for C10: duplicating a tab already named `main.py Copy`. -/
def copySuffixState : StoreState :=
  ⟨[⟨"tab-1", "main.py Copy", "x", true, 71, none⟩], "tab-1", 1, "x", 71, 0⟩

/-- C10. The `safeBase` regex strips an existing ` Copy`/` Copy N` suffix
(with optional extension) from the duplicated tab's name before generating the
copy name — so duplicating `main.py Copy` while it exists yields
`main.py Copy 2`, not `main.py Copy Copy` — and the duplicated tab always has
`isCustomName = true` and no `path` field. -/
theorem duplicateTab_strips_copy_suffix :
    (∀ (s : StoreState) (tabId : String) (orig : Tab),
      s.tabs.find? (fun t => t.id = tabId) = some orig →
      ∃ d : Tab, (duplicateTab s tabId).tabs = s.tabs ++ [d] ∧ d.isCustomName = true ∧
        d.path = none ∧
        d.name = genCopyName (safeBase orig.name) (s.tabs.map (fun t => t.name))) ∧
    (∀ (name : String) (b suf : List Char), name.data = b ++ suf →
      isCopySuffix suf = true →
      ∃ removed, name.data = (safeBase name).data ++ removed ∧
        isCopySuffix removed = true) ∧
    (duplicateTab copySuffixState "tab-1").tabs.map (fun t => t.name) =
      ["main.py Copy", "main.py Copy 2"] := by
  refine ⟨?_, ?_, by decide⟩
  · intro s tabId orig hfind
    exact ⟨_, duplicateTab_spec s tabId orig hfind, rfl, rfl, rfl⟩
  · intro name b suf hsplit hsuf
    have hne : name ≠ "" := by
      intro h0
      rw [h0] at hsplit
      have hd : ([] : List Char) = b ++ suf := hsplit
      have : suf = [] := (List.append_eq_nil.mp hd.symm).2
      rw [this] at hsuf
      simp [isCopySuffix] at hsuf
    have hsb : (safeBase name).data = stripCopy name.data := by
      simp [safeBase, hne]
    rw [hsb]
    exact stripCopy_strips name.data b suf hsplit hsuf

theorem duplicateTab_strips_copy_suffix_witness :
    (∃ d : Tab, (duplicateTab copySuffixState "tab-1").tabs = copySuffixState.tabs ++ [d] ∧
      d.isCustomName = true ∧ d.path = none ∧
      d.name = genCopyName (safeBase "main.py Copy") ["main.py Copy"]) ∧
    (∃ removed, ("main.py Copy" : String).data = (safeBase "main.py Copy").data ++ removed ∧
      isCopySuffix removed = true) := by
  constructor
  · exact (duplicateTab_strips_copy_suffix).1 copySuffixState "tab-1"
      ⟨"tab-1", "main.py Copy", "x", true, 71, none⟩ (by decide)
  · exact (duplicateTab_strips_copy_suffix).2.1 "main.py Copy" "main.py".data
      [' ', 'C', 'o', 'p', 'y'] (by decide) (by decide)
